import Mathlib

/-!
Shallow embedding of `src/spellchecker.ts` (monaco-spellchecker).

The source is a single TypeScript module exposing `getSpellchecker`,
which wires an annotation pass (`process`), a code-action provider
(`provideCodeActions`), editor-action registrations and a `dispose`
teardown to a Monaco editor host.

Modelling conventions:
* strings are Lean `String`s (the inputs of interest are ASCII, where
  JavaScript UTF-16 indices and Lean character indices agree);
* the pluggable `check` / `suggest` functions are modelled as pure
  functions `String → Bool` / `String → List String` (a deterministic
  checker, as the claims assume); their asynchrony is modelled
  separately by an explicit schedule of the `disposed` flag observed at
  each `await` point (`processD`);
* the optional `ignore` / `addWord` capabilities are observable only
  through their presence, so the configuration records that presence
  as a `Bool`;
* the Monaco marker store is a plain list of markers; `setModelMarkers`
  replaces it wholesale and `removeAllMarkers` clears it.
-/

namespace Spellchecker

/-- A token produced by a tokenizer: `{ word, pos }` in the source. -/
structure Token where
  word : String
  pos : Nat
deriving DecidableEq, Repr

/-- The four message kinds accepted by a message builder
(`'hover-message' | 'ignore' | 'add-word' | 'apply-suggestion'`). -/
inductive MsgType where
  | hoverMessage
  | ignore
  | addWord
  | applySuggestion
deriving DecidableEq, Repr

/-- The `XRange` projection of a Monaco range used throughout the source. -/
structure XRange where
  startLineNumber : Nat
  startColumn : Nat
  endLineNumber : Nat
  endColumn : Nat
deriving DecidableEq, Repr

/-- The fields of `Monaco.editor.IMarkerData` populated by `process`. -/
structure MarkerData where
  code : String
  startLineNumber : Nat
  startColumn : Nat
  endLineNumber : Nat
  endColumn : Nat
  message : String
  severity : Nat
deriving DecidableEq, Repr

/-- Value of `Monaco.MarkerSeverity.Warning` (the default severity in the source:
`opts.severity || monaco.MarkerSeverity.Warning`). -/
def warningSeverity : Nat := 4

/-- Source constant: `export const ignoreActionId = 'spellchecker.ignore'`. -/
def ignoreActionId : String := "spellchecker.ignore"

/-- Source constant: `export const addWordActionId = 'spellchecker.addWord'`. -/
def addWordActionId : String := "spellchecker.addWord"

/-- Source constant: `export const correctActionId = 'spellchecker.correct'`. -/
def correctActionId : String := "spellchecker.correct"

/-- Function `buildCustomEditorId` from the source: prepends the fixed editor id. -/
def buildCustomEditorId (actionId : String) : String :=
  "vs.editor.ICodeEditor:1:" ++ actionId

/-- Function `defaultMessageBuilder` from the source.  The source signature also
receives a range and the options record but never reads them; the
range parameter is kept for signature fidelity. -/
def defaultMessageBuilder : MsgType → String → XRange → String
  | MsgType.hoverMessage, word, _ => "\"" ++ word ++ "\" is misspelled."
  | MsgType.ignore, word, _ => "Ignore \"" ++ word ++ "\""
  | MsgType.addWord, word, _ => "Add \"" ++ word ++ "\" to Dictionary"
  | MsgType.applySuggestion, word, _ => "Replace with \"" ++ word ++ "\""

/-! ### Default tokenizer

`defaultTokenize` in the source repeatedly calls
`/\b[a-zA-Z']+\b/g .exec(text)` and yields `{ word, pos }` for every
match of length ≥ 2.  We embed the JavaScript regex semantics for this
particular pattern: a word character for `\b` purposes is `[A-Za-z0-9_]`;
a match at position `i` needs a word boundary at `i`, then a maximal
greedy run of `[a-zA-Z']` backtracked until a word boundary holds at its
end; `exec` returns the leftmost such match at or after `lastIndex`,
which then advances past the match. -/

/-- The apostrophe character (code point 39), written via `Char.ofNat`. -/
def apostrophe : Char := Char.ofNat 39

/-- JavaScript `\w`: `[A-Za-z0-9_]`. -/
def isWordChar (c : Char) : Bool :=
  c.isAlpha || c.isDigit || c == '_'

/-- A character matched by the regex character class `[a-zA-Z']`. -/
def isTokChar (c : Char) : Bool :=
  c.isAlpha || c == apostrophe

/-- Whether position `i` of `s` sits on a word character
(out-of-range positions never do). -/
def wordAt (s : List Char) (i : Nat) : Bool :=
  match s.get? i with
  | some c => isWordChar c
  | none => false

/-- JavaScript `\b` at position `i`: exactly one of the character before
`i` and the character at `i` is a word character. -/
def boundary (s : List Char) (i : Nat) : Bool :=
  (if i = 0 then false else wordAt s (i - 1)) != wordAt s i

/-- Length of the maximal run of `[a-zA-Z']` characters at the front. -/
def runLen : List Char → Nat
  | [] => 0
  | c :: rest => if isTokChar c then runLen rest + 1 else 0

/-- Greedy backtracking for the trailing `\b`: the largest `k ≤ maxLen`,
`k ≥ 1`, with a word boundary at `i + k`. -/
def backtrack (s : List Char) (i : Nat) : Nat → Option Nat
  | 0 => none
  | k + 1 => if boundary s (i + k + 1) then some (k + 1) else backtrack s i k

/-- Try to match `\b[a-zA-Z']+\b` at exactly position `i`;
returns the match length. -/
def tryMatch (s : List Char) (i : Nat) : Option Nat :=
  if boundary s i then backtrack s i (runLen (s.drop i)) else none

/-- Leftmost match of the regex at a position `≥ i` (`exec` semantics);
returns `(position, length)`.  `fuel` bounds the scan. -/
def execFrom (s : List Char) : Nat → Nat → Option (Nat × Nat)
  | 0, _ => none
  | fuel + 1, i =>
    if i > s.length then none
    else
      match tryMatch s i with
      | some len => some (i, len)
      | none => execFrom s fuel (i + 1)

/-- The `while ((match = wordReg.exec(text)) !== null)` loop: collect
matches from `lastIndex = li` on, skipping words of length < 2
(`if (word.length < 2) continue`). -/
def tokensFrom (s : List Char) : Nat → Nat → List Token
  | 0, _ => []
  | fuel + 1, li =>
    match execFrom s (s.length + 1) li with
    | none => []
    | some (p, len) =>
      let w : String := String.mk ((s.drop p).take len)
      let rest := tokensFrom s fuel (p + len)
      if w.length < 2 then rest else { word := w, pos := p } :: rest

/-- Function `defaultTokenize` from the source, as the list of yielded tokens. -/
def defaultTokenize (text : String) : List Token :=
  tokensFrom text.toList (text.toList.length + 1) 0

/-! ### Configuration

The `Options` record captured by `getSpellchecker`, restricted to its
observable content.  `check` and `suggest` are modelled as pure
functions (a deterministic checker/suggester); the optional `ignore`
and `addWord` capabilities are side-effecting functions whose only
observable aspect here is their presence. -/

/-- The destructured options of `getSpellchecker`. -/
structure Config where
  severity : Option Nat
  tokenize : String → List Token
  check : String → Bool
  suggest : String → List String
  hasIgnore : Bool
  hasAddWord : Bool
  messageBuilder : MsgType → String → XRange → String

/-! ### Annotation engine (`process`) -/

/-- JavaScript `text.split('\n')` on the character list: every newline
separates two (possibly empty) segments. -/
def splitLines : List Char → List (List Char)
  | [] => [[]]
  | c :: rest =>
    if c = '\n' then [] :: splitLines rest
    else
      match splitLines rest with
      | [] => [[c]]
      | l :: ls => (c :: l) :: ls

/-- JavaScript `text.split('\n')` as a list of strings. -/
def splitOnNewlines (text : String) : List String :=
  (splitLines text.toList).map String.mk

/-- The marker pushed for a misspelled token `t` on line `lineIndex`
(0-based): lines 111–127 of the source. -/
def mkMarker (cfg : Config) (lineIndex : Nat) (t : Token) : MarkerData :=
  let startColumn := t.pos + 1
  let endColumn := startColumn + t.word.length
  let range : XRange :=
    { startLineNumber := lineIndex + 1, startColumn := startColumn,
      endLineNumber := lineIndex + 1, endColumn := endColumn }
  { code := t.word
    startLineNumber := lineIndex + 1
    startColumn := startColumn
    endLineNumber := lineIndex + 1
    endColumn := endColumn
    message := cfg.messageBuilder MsgType.hoverMessage t.word range
    severity := cfg.severity.getD warningSeverity }

/-- The inner token loop of `process` on one line: every misspelled
token contributes one marker, in token order. -/
def processLine (cfg : Config) (lineIndex : Nat) (line : String) : List MarkerData :=
  (cfg.tokenize line).filterMap fun t =>
    if cfg.check t.word then none else some (mkMarker cfg lineIndex t)

/-- The outer line loop of `process`: before each line the accumulated
count is tested against the hard cap (`if (marks.length > 500) break`);
a line that is processed is processed in full. -/
def processLines (cfg : Config) : Nat → List String → List MarkerData → List MarkerData
  | _, [], marks => marks
  | lineIndex, line :: rest, marks =>
    if marks.length > 500 then marks
    else processLines cfg (lineIndex + 1) rest (marks ++ processLine cfg lineIndex line)

/-- Function `process` with the session never disposed: the list of markers
published by `setModelMarkers` for document content `text`. -/
def process (cfg : Config) (text : String) : List MarkerData :=
  processLines cfg 0 (splitOnNewlines text) []

/-! ### `process` with a disposal schedule

`process` reads the `disposed` flag at entry and again after every
checker await (`if (disposed) return`, source line 109).  The host is
single threaded, so `dispose()` can only interleave at those suspension
points.  `D k` is the value of `disposed` observed at the `k`-th read
(`k = 0` is the entry read; read `k ≥ 1` follows the `k`-th token's
check).  The result is `(none, k)` when the scan was abandoned at read
`k` — no marker-store mutation — and `(some marks, k)` when it
completed after `k` reads and published `marks`. -/

/-- Token loop of `process` under disposal schedule `D`, threading the
read counter `k`. -/
def procTokens (cfg : Config) (D : Nat → Bool) (lineIndex : Nat) :
    List Token → Nat → List MarkerData → Option (List MarkerData) × Nat
  | [], k, marks => (some marks, k)
  | t :: rest, k, marks =>
    let isCorrect := cfg.check t.word
    if D (k + 1) then (none, k + 1)
    else
      procTokens cfg D lineIndex rest (k + 1)
        (if isCorrect then marks else marks ++ [mkMarker cfg lineIndex t])

/-- Line loop of `process` under disposal schedule `D`. -/
def procLines (cfg : Config) (D : Nat → Bool) :
    Nat → List String → Nat → List MarkerData → Option (List MarkerData) × Nat
  | _, [], k, marks => (some marks, k)
  | lineIndex, line :: rest, k, marks =>
    if marks.length > 500 then (some marks, k)
    else
      match procTokens cfg D lineIndex (cfg.tokenize line) k marks with
      | (none, k2) => (none, k2)
      | (some marks2, k2) => procLines cfg D (lineIndex + 1) rest k2 marks2

/-- Function `process` under disposal schedule `D`: `(published?, reads performed)`. -/
def processD (cfg : Config) (D : Nat → Bool) (text : String) :
    Option (List MarkerData) × Nat :=
  if D 0 then (none, 0)
  else procLines cfg D 0 (splitOnNewlines text) 0 []

/-- The session's marker-store slot after a run in which `dispose()`
was called at a suspension point of `process`: `dispose` clears the
store (`removeAllMarkers`), and the only later writer is the
`setModelMarkers` of a `process` that runs to completion. -/
def storeAfterDispose (cfg : Config) (D : Nat → Bool) (text : String) :
    List MarkerData :=
  ((processD cfg D text).1).getD []

/-! ### Code-action provider -/

/-- The payload of a code action's command: `{ range, suggestion }` for
the correction command, a bare word for ignore/add-word. -/
inductive ActionArgs where
  | replaceArg (range : XRange) (suggestion : String)
  | wordArg (word : String)
deriving DecidableEq, Repr

/-- A `Monaco.languages.Command` as populated by the source. -/
structure Command where
  id : String
  title : String
  args : ActionArgs
deriving DecidableEq, Repr

/-- A `Monaco.languages.CodeAction` as populated by the source. -/
structure CodeAction where
  title : String
  command : Command
  ranges : List XRange
  kind : String
deriving DecidableEq, Repr

/-- The `XRange` part of a marker (markers are passed where ranges are
expected in the source, e.g. `ranges: [marker]`). -/
def MarkerData.toRange (m : MarkerData) : XRange :=
  { startLineNumber := m.startLineNumber, startColumn := m.startColumn,
    endLineNumber := m.endLineNumber, endColumn := m.endColumn }

/-- Monaco's `Range.containsRange(range, otherRange)`: does `range`
contain `otherRange`?  The provider invokes it as
`range.containsRange.call(marker, range)`, i.e. with the marker as
`this`, testing whether the marker's range contains the query range. -/
def containsRange (range otherRange : XRange) : Bool :=
  if otherRange.startLineNumber < range.startLineNumber then false
  else if otherRange.endLineNumber < range.startLineNumber then false
  else if otherRange.startLineNumber > range.endLineNumber then false
  else if otherRange.endLineNumber > range.endLineNumber then false
  else if otherRange.startLineNumber == range.startLineNumber &&
      otherRange.startColumn < range.startColumn then false
  else if otherRange.endLineNumber == range.endLineNumber &&
      otherRange.endColumn > range.endColumn then false
  else true

/-- The apply-suggestion action pushed for each suggester result. -/
def applyAction (cfg : Config) (marker : MarkerData) (suggestion : String) :
    CodeAction :=
  { title := suggestion
    command :=
      { id := buildCustomEditorId correctActionId
        title := cfg.messageBuilder MsgType.applySuggestion suggestion marker.toRange
        args := ActionArgs.replaceArg marker.toRange suggestion }
    ranges := [marker.toRange]
    kind := "quickfix" }

/-- The ignore action pushed when the `ignore` capability is configured. -/
def ignoreAction (cfg : Config) (marker : MarkerData) (word : String) :
    CodeAction :=
  let title := cfg.messageBuilder MsgType.ignore word marker.toRange
  { title := title
    command :=
      { id := buildCustomEditorId ignoreActionId
        title := title
        args := ActionArgs.wordArg word }
    ranges := [marker.toRange]
    kind := "quickfix" }

/-- The add-word action pushed when the `addWord` capability is configured. -/
def addWordAction (cfg : Config) (marker : MarkerData) (word : String) :
    CodeAction :=
  let title := cfg.messageBuilder MsgType.addWord word marker.toRange
  { title := title
    command :=
      { id := buildCustomEditorId addWordActionId
        title := title
        args := ActionArgs.wordArg word }
    ranges := [marker.toRange]
    kind := "quickfix" }

/-- The action list assembled for a found marker and suggester output
`list`: all suggestions first in order, then ignore (if configured),
then add-word (if configured). -/
def buildActions (cfg : Config) (marker : MarkerData) (word : String)
    (list : List String) : List CodeAction :=
  (list.map fun suggestion => applyAction cfg marker suggestion) ++
    (if cfg.hasIgnore then [ignoreAction cfg marker word] else []) ++
      (if cfg.hasAddWord then [addWordAction cfg marker word] else [])

/-- Function `provideCodeActions` from the source.  `disposed` is the flag at
entry; `markers` is the session's published marker set fetched from the
host store; `cancelled` is the cancellation token's
`isCancellationRequested`, observed after awaiting the suggester.  The
second component records whether the suggester was invoked.  `none`
stands for the `null` returns (no actions). -/
def provideCodeActions (cfg : Config) (disposed : Bool)
    (markers : List MarkerData) (range : XRange) (cancelled : Bool) :
    Option (List CodeAction) × Bool :=
  if disposed then (none, false)
  else
    match markers.find? (fun marker => containsRange marker.toRange range) with
    | none => (none, false)
    | some marker =>
      let word := marker.code
      let list := cfg.suggest word
      if cancelled then (none, true)
      else (some (buildActions cfg marker word list), true)

/-! ### Session lifecycle -/

/-- A host registration held in `disposables`: the two unconditional
entries (the correction editor action and the code-action-provider
registration) and the capability-gated editor actions. -/
inductive Registration where
  | editorAction (id : String)
  | codeActionProviderReg
deriving DecidableEq, Repr

/-- The `disposables` list built at construction: the correction action
and the provider registration always, then the ignore editor action if
`ignore` is configured, then the add-word editor action if `addWord`
is configured (source lines 201–251). -/
def registrations (cfg : Config) : List Registration :=
  [Registration.editorAction correctActionId, Registration.codeActionProviderReg] ++
    (if cfg.hasIgnore then [Registration.editorAction ignoreActionId] else []) ++
      (if cfg.hasAddWord then [Registration.editorAction addWordActionId] else [])

/-- The mutable session state: the session's marker-store slot, the
`disposables` array and the `disposed` flag. -/
structure SessionState where
  markers : List MarkerData
  disposables : List Registration
  disposed : Bool
deriving DecidableEq, Repr

/-- A completed `process` call as a state transformer: it overwrites
the marker-store slot with the freshly computed list (one atomic
`setModelMarkers`) and reads nothing from the previous slot. -/
def applyProcess (cfg : Config) (text : String) (s : SessionState) :
    SessionState :=
  { s with markers := process cfg text }

/-- Function `dispose` from the source: clear the marker store
(`removeAllMarkers`), call `dispose` on every held registration, empty
the `disposables` array, set the flag.  The second component is the
list of registrations released by this call. -/
def dispose (s : SessionState) : SessionState × List Registration :=
  ({ markers := [], disposables := [], disposed := true }, s.disposables)

/-! ### Derived notions used to state the claims -/

/-- The markers `process` would accumulate with the cap removed: one
per misspelled token, line by line, starting at 0-based line `i`. -/
def uncapped (cfg : Config) : Nat → List String → List MarkerData
  | _, [] => []
  | i, line :: rest => processLine cfg i line ++ uncapped cfg (i + 1) rest

/-- The number of misspelled tokens of a document, line by line. -/
def misspelledCount (cfg : Config) : List String → Nat
  | [] => 0
  | line :: rest =>
    ((cfg.tokenize line).filter fun t => !cfg.check t.word).length +
      misspelledCount cfg rest

/-! ### Concrete instances used by witnesses and counterexamples -/

/-- A tokenizer-independent config whose single line tokenizes to 502
misspelled occurrences of `"ab"`. -/
def cfg1 : Config :=
  { severity := none
    tokenize := fun _ => List.replicate 502 { word := "ab", pos := 0 }
    check := fun _ => false
    suggest := fun _ => []
    hasIgnore := false
    hasAddWord := false
    messageBuilder := fun _ _ _ => "" }

/-- A sample marker. -/
def wMarker1 : MarkerData :=
  { code := "ab", startLineNumber := 1, startColumn := 1,
    endLineNumber := 1, endColumn := 3, message := "", severity := 4 }

/-- A config with the default tokenizer whose checker flags exactly the
word `"cta"`. -/
def cfg2 : Config :=
  { severity := none
    tokenize := defaultTokenize
    check := fun w => w != "cta"
    suggest := fun _ => ["cat", "car"]
    hasIgnore := true
    hasAddWord := true
    messageBuilder := defaultMessageBuilder }

/-- A disposal schedule set from the first await on. -/
def D3 : Nat → Bool := fun k => decide (1 ≤ k)

/-- A config producing one misspelled token per line. -/
def cfg3 : Config :=
  { severity := none
    tokenize := fun _ => [{ word := "ab", pos := 0 }]
    check := fun _ => false
    suggest := fun _ => []
    hasIgnore := false
    hasAddWord := false
    messageBuilder := fun _ _ _ => "" }

/-- The marker `process cfg2` publishes for `"a cta"`. -/
def wMarker2 : MarkerData := mkMarker cfg2 0 { word := "cta", pos := 2 }

/-- A message builder that differs from `defaultMessageBuilder` only on
the ignore kind. -/
def mb6 : MsgType → String → XRange → String := fun t w r =>
  if t = MsgType.ignore then "CHANGED" else defaultMessageBuilder t w r

/-- Config `cfg2` with the ignore capability absent. -/
def cfg6 : Config :=
  { cfg2 with hasIgnore := false }

/-! ## Theorems -/

/-- Every token yielded by the default tokenizer has length at least 2
(the `if (word.length < 2) continue` filter). -/
theorem tokensFrom_word_length (s : List Char) :
    ∀ fuel li t, t ∈ tokensFrom s fuel li → 2 ≤ t.word.length := by
  intro fuel
  induction fuel with
  | zero => intro li t ht; simp [tokensFrom] at ht
  | succ fuel ih =>
    intro li t ht
    rw [tokensFrom] at ht
    cases hexec : execFrom s (s.length + 1) li with
    | none => rw [hexec] at ht; simp at ht
    | some pl =>
      obtain ⟨p, len⟩ := pl
      rw [hexec] at ht
      simp only at ht
      by_cases hw : (String.mk ((s.drop p).take len)).length < 2
      · rw [if_pos hw] at ht
        exact ih _ t ht
      · rw [if_neg hw] at ht
        rcases List.mem_cons.mp ht with h | h
        · subst h
          simpa using Nat.le_of_not_lt hw
        · exact ih _ t h

/-- C7: the default tokenizer on `"a cat, cat's toy"` yields exactly
`cat` at 2, `cat's` at 7 and `toy` at 13 in that order; the empty
string yields nothing (and the tokenizer is a total function, so it
cannot throw); every yielded token has length at least 2. -/
theorem C7_default_tokenizer :
    defaultTokenize "a cat, cat's toy" =
      [⟨"cat", 2⟩, ⟨"cat's", 7⟩, ⟨"toy", 13⟩] ∧
    defaultTokenize "" = [] ∧
    ∀ text : String, ∀ t ∈ defaultTokenize text, 2 ≤ t.word.length :=
  ⟨by decide, by decide,
    fun _ t ht => tokensFrom_word_length _ _ _ t ht⟩

/-- Witness for C7 at the concrete token `cat`. -/
theorem C7_default_tokenizer_witness :
    (⟨"cat", 2⟩ : Token) ∈ defaultTokenize "a cat, cat's toy" ∧
    2 ≤ (Token.mk "cat" 2).word.length :=
  ⟨by decide,
    C7_default_tokenizer.2.2 "a cat, cat's toy" ⟨"cat", 2⟩ (by decide)⟩

/-- C4: when the provider finds an overlapping diagnostic and both
capabilities are configured, the returned action list is exactly one
apply-suggestion action per suggester result in order, then the ignore
action, then the add-word action; every returned action is of quick-fix
kind. -/
theorem C4_action_ordering (cfg : Config) (markers : List MarkerData)
    (range : XRange) (m : MarkerData)
    (hI : cfg.hasIgnore = true) (hA : cfg.hasAddWord = true)
    (hfind : markers.find? (fun marker => containsRange marker.toRange range) =
      some m) :
    (provideCodeActions cfg false markers range false).1 =
      some ((cfg.suggest m.code).map (applyAction cfg m) ++
        [ignoreAction cfg m m.code, addWordAction cfg m m.code]) ∧
    ∀ a ∈ (cfg.suggest m.code).map (applyAction cfg m) ++
        [ignoreAction cfg m m.code, addWordAction cfg m m.code],
      a.kind = "quickfix" := by
  constructor
  · simp [provideCodeActions, hfind, buildActions, hI, hA]
  · intro a ha
    rcases List.mem_append.mp ha with h | h
    · obtain ⟨sug, _, rfl⟩ := List.mem_map.mp h
      rfl
    · simp only [List.mem_cons, List.mem_singleton] at h
      rcases h with rfl | rfl | h
      · rfl
      · rfl
      · simp at h

/-- Witness for C4 on `cfg2` with the marker for `cta`. -/
theorem C4_action_ordering_witness :
    cfg2.hasIgnore = true ∧ cfg2.hasAddWord = true ∧
    [wMarker2].find?
      (fun marker => containsRange marker.toRange wMarker2.toRange) =
      some wMarker2 ∧
    (provideCodeActions cfg2 false [wMarker2] wMarker2.toRange false).1 =
      some ((cfg2.suggest wMarker2.code).map (applyAction cfg2 wMarker2) ++
        [ignoreAction cfg2 wMarker2 wMarker2.code,
          addWordAction cfg2 wMarker2 wMarker2.code]) :=
  ⟨rfl, rfl, by decide,
    (C4_action_ordering cfg2 [wMarker2] wMarker2.toRange wMarker2 rfl rfl
      (by decide)).1⟩

/-- C5: a fix-action query whose cancellation token fires after the
suggester await returns no actions, and a query on a disposed session
returns no actions without ever invoking the suggester. -/
theorem C5_cancellation_and_disposal (cfg : Config)
    (markers : List MarkerData) (range : XRange) (c : Bool) :
    (provideCodeActions cfg false markers range true).1 = none ∧
    provideCodeActions cfg true markers range c = (none, false) := by
  constructor
  · cases h : markers.find? (fun marker => containsRange marker.toRange range) with
    | none => simp [provideCodeActions, h]
    | some m => simp [provideCodeActions, h]
  · simp [provideCodeActions]

/-- C8: `process` is deterministic and ignores the previous marker
store, so two successive completed calls on the same text publish
identical diagnostic lists, and the second call leaves the session
state unchanged. -/
theorem C8_process_idempotent (cfg : Config) (text : String)
    (s : SessionState) :
    applyProcess cfg text (applyProcess cfg text s) =
      applyProcess cfg text s ∧
    (applyProcess cfg text (applyProcess cfg text s)).markers =
      (applyProcess cfg text s).markers :=
  ⟨rfl, rfl⟩

/-- C10: a first `dispose` empties the registration list, so a second
`dispose` releases zero registrations and merely re-clears the store
and re-sets the flag; across both calls each held registration is
released exactly once. -/
theorem C10_double_dispose_safe (s : SessionState) :
    (dispose s).1.disposables = [] ∧
    (dispose (dispose s).1).2 = [] ∧
    (dispose (dispose s).1).1 = (dispose s).1 ∧
    (dispose s).2 ++ (dispose (dispose s).1).2 = s.disposables := by
  simp [dispose]

set_option maxRecDepth 4000 in
/-- C1 counterexample: a document whose single line carries 502
misspelled tokens (`N = 502 > 500`) gets all 502 diagnostics
published — the published marker list does exceed the 500 cap, because
the cap is only consulted between lines. -/
theorem C1_counterexample :
    misspelledCount cfg1 (splitOnNewlines "ab") = 502 ∧
    (process cfg1 "ab").length = 502 ∧
    500 < (process cfg1 "ab").length := by
  refine ⟨by decide, by decide, by decide⟩

/-- C1 amended: once the accumulated diagnostic count exceeds 500, the
scan stops before the next line and no further line is processed (the
already-accumulated diagnostics — possibly more than 500 — are what
gets published). -/
theorem C1_cap_stops_lines (cfg : Config) (lineIndex : Nat)
    (lines : List String) (marks : List MarkerData)
    (h : 500 < marks.length) :
    processLines cfg lineIndex lines marks = marks := by
  cases lines with
  | nil => rfl
  | cons line rest => simp [processLines, h]

/-- Witness for the amended C1 with 501 accumulated markers. -/
theorem C1_cap_stops_lines_witness :
    500 < (List.replicate 501 wMarker1).length ∧
    processLines cfg1 0 ["x"] (List.replicate 501 wMarker1) =
      List.replicate 501 wMarker1 :=
  ⟨by rw [List.length_replicate]; omega,
    C1_cap_stops_lines cfg1 0 ["x"] _ (by rw [List.length_replicate]; omega)⟩

/-- Expansion of the per-line token loop: one marker per misspelled
token, in token order. -/
theorem processLine_eq (cfg : Config) (i : Nat) (line : String) :
    processLine cfg i line =
      ((cfg.tokenize line).filter fun t => !cfg.check t.word).map
        (mkMarker cfg i) := by
  show (cfg.tokenize line).filterMap _ = _
  generalize cfg.tokenize line = ts
  induction ts with
  | nil => rfl
  | cons t rest ih =>
    simp only [List.filterMap_cons, List.filter_cons]
    cases hc : cfg.check t.word <;> simp [hc, ih]

/-- The uncapped scan produces exactly one marker per misspelled token. -/
theorem uncapped_length (cfg : Config) (lines : List String) :
    ∀ i, (uncapped cfg i lines).length = misspelledCount cfg lines := by
  induction lines with
  | nil => intro i; rfl
  | cons line rest ih =>
    intro i
    simp [uncapped, misspelledCount, processLine_eq, ih]

/-- Below the cap, the capped line loop agrees with the uncapped scan. -/
theorem processLines_eq_uncapped (cfg : Config) :
    ∀ (lines : List String) (i : Nat) (marks : List MarkerData),
    marks.length + (uncapped cfg i lines).length ≤ 500 →
    processLines cfg i lines marks = marks ++ uncapped cfg i lines := by
  intro lines
  induction lines with
  | nil => intro i marks _; simp [processLines, uncapped]
  | cons line rest ih =>
    intro i marks h
    have hcap : ¬ marks.length > 500 := by
      simp only [uncapped, List.length_append] at h
      omega
    rw [processLines, if_neg hcap, ih]
    · simp [uncapped]
    · simp only [uncapped, List.length_append] at h ⊢
      omega

/-- C2: when the document holds `N ≤ 500` misspelled tokens, a
completed `process` publishes exactly `N` diagnostics — one per
misspelled token, line by line in token order — and each diagnostic of
token `t` on 0-based line `i` spans line `i + 1` from column
`t.pos + 1` (inclusive) to column `t.pos + 1 + t.word.length`
(exclusive). -/
theorem C2_under_cap (cfg : Config) (text : String)
    (h : misspelledCount cfg (splitOnNewlines text) ≤ 500) :
    process cfg text = uncapped cfg 0 (splitOnNewlines text) ∧
    (process cfg text).length = misspelledCount cfg (splitOnNewlines text) ∧
    ∀ i t,
      (mkMarker cfg i t).startLineNumber = i + 1 ∧
      (mkMarker cfg i t).endLineNumber = i + 1 ∧
      (mkMarker cfg i t).startColumn = t.pos + 1 ∧
      (mkMarker cfg i t).endColumn = t.pos + 1 + t.word.length := by
  have heq : process cfg text = uncapped cfg 0 (splitOnNewlines text) := by
    have := processLines_eq_uncapped cfg (splitOnNewlines text) 0 []
    simpa [process, uncapped_length, h] using this
  refine ⟨heq, ?_, fun i t => ⟨rfl, rfl, rfl, rfl⟩⟩
  rw [heq, uncapped_length]

/-- Witness for C2 on `cfg2` and the one-misspelling document `a cta`. -/
theorem C2_under_cap_witness :
    misspelledCount cfg2 (splitOnNewlines "a cta") ≤ 500 ∧
    process cfg2 "a cta" = uncapped cfg2 0 (splitOnNewlines "a cta") ∧
    (process cfg2 "a cta").length = misspelledCount cfg2 (splitOnNewlines "a cta") :=
  ⟨by decide, (C2_under_cap cfg2 "a cta" (by decide)).1,
    (C2_under_cap cfg2 "a cta" (by decide)).2.1⟩

/-- Every marker accumulated by the line loop is either inherited from
the accumulator or built by `mkMarker` from a misspelled token of one
of the scanned lines. -/
theorem mem_processLines (cfg : Config) :
    ∀ (lines : List String) (i : Nat) (marks : List MarkerData)
      (m : MarkerData), m ∈ processLines cfg i lines marks →
    m ∈ marks ∨ ∃ j line t, lines.get? j = some line ∧
      t ∈ cfg.tokenize line ∧ cfg.check t.word = false ∧
      m = mkMarker cfg (i + j) t := by
  intro lines
  induction lines with
  | nil => intro i marks m hm; exact Or.inl hm
  | cons line rest ih =>
    intro i marks m hm
    by_cases hcap : marks.length > 500
    · rw [processLines, if_pos hcap] at hm
      exact Or.inl hm
    · rw [processLines, if_neg hcap] at hm
      rcases ih (i + 1) (marks ++ processLine cfg i line) m hm with h | h
      · rcases List.mem_append.mp h with h2 | h2
        · exact Or.inl h2
        · rw [processLine_eq] at h2
          obtain ⟨t, ht, rfl⟩ := List.mem_map.mp h2
          obtain ⟨htok, hchk⟩ := List.mem_filter.mp ht
          refine Or.inr ⟨0, line, t, rfl, htok, ?_, by rw [Nat.add_zero]⟩
          simpa using hchk
      · obtain ⟨j, line2, t, hget, htok, hchk, rfl⟩ := h
        refine Or.inr ⟨j + 1, line2, t, by simpa using hget, htok, hchk, ?_⟩
        have : i + 1 + j = i + (j + 1) := by omega
        rw [this]

/-- C9: every published diagnostic has `endLineNumber` equal to
`startLineNumber`, `endColumn` equal to `startColumn` plus the length
of the word stored in `code`, and is built from a misspelled token of
the document with `code` equal to that token's word; the fix-action
provider reads that `code` field back and feeds it to the suggester. -/
theorem C9_marker_invariants (cfg : Config) (text : String)
    (m : MarkerData) (hm : m ∈ process cfg text) :
    m.endLineNumber = m.startLineNumber ∧
    m.endColumn = m.startColumn + m.code.length ∧
    (∃ i line t, (splitOnNewlines text).get? i = some line ∧
      t ∈ cfg.tokenize line ∧ cfg.check t.word = false ∧
      m = mkMarker cfg i t ∧ m.code = t.word) ∧
    ∀ markers range marker,
      markers.find? (fun mm => containsRange mm.toRange range) = some marker →
      (provideCodeActions cfg false markers range false).1 =
        some (buildActions cfg marker marker.code (cfg.suggest marker.code)) := by
  rcases mem_processLines cfg (splitOnNewlines text) 0 [] m hm with h | h
  · simp at h
  · obtain ⟨j, line, t, hget, htok, hchk, rfl⟩ := h
    rw [Nat.zero_add] at *
    refine ⟨rfl, rfl, ⟨j, line, t, hget, htok, hchk, rfl, rfl⟩, ?_⟩
    intro markers range marker hfind
    simp [provideCodeActions, hfind]

/-- Witness for C9 on the diagnostic `process cfg2` publishes for the
document `a cta`. -/
theorem C9_marker_invariants_witness :
    wMarker2 ∈ process cfg2 "a cta" ∧
    wMarker2.endLineNumber = wMarker2.startLineNumber ∧
    wMarker2.endColumn = wMarker2.startColumn + wMarker2.code.length :=
  ⟨by decide, (C9_marker_invariants cfg2 "a cta" wMarker2 (by decide)).1,
    (C9_marker_invariants cfg2 "a cta" wMarker2 (by decide)).2.1⟩

/-- Reads monotonicity and abort soundness of the token loop: the read
counter never decreases, and a completed token loop observed a false
`disposed` flag at every read it performed. -/
theorem procTokens_spec (cfg : Config) (D : Nat → Bool) (li : Nat) :
    ∀ (toks : List Token) (k : Nat) (marks : List MarkerData),
    k ≤ (procTokens cfg D li toks k marks).2 ∧
    ((procTokens cfg D li toks k marks).1.isSome = true →
      ∀ j, k < j → j ≤ (procTokens cfg D li toks k marks).2 → D j = false) := by
  intro toks
  induction toks with
  | nil =>
    intro k marks
    refine ⟨le_refl _, ?_⟩
    intro _ j hj hj2
    simp only [procTokens] at hj2
    exact absurd hj2 (by omega)
  | cons t rest ih =>
    intro k marks
    by_cases hD : D (k + 1) = true
    · constructor
      · simp [procTokens, hD]
      · intro hs
        simp [procTokens, hD] at hs
    · have hD' : D (k + 1) = false := by
        cases h : D (k + 1)
        · rfl
        · exact absurd h hD
      have hrec : procTokens cfg D li (t :: rest) k marks =
          procTokens cfg D li rest (k + 1)
            (if cfg.check t.word then marks else marks ++ [mkMarker cfg li t]) := by
        simp [procTokens, hD']
      obtain ⟨ih1, ih2⟩ :=
        ih (k + 1) (if cfg.check t.word then marks else marks ++ [mkMarker cfg li t])
      rw [hrec]
      refine ⟨le_trans (Nat.le_succ k) ih1, ?_⟩
      intro hs j hj hj2
      rcases Nat.lt_or_ge (k + 1) j with hgt | hle
      · exact ih2 hs j hgt hj2
      · have : j = k + 1 := by omega
        rw [this]
        exact hD'

/-- Reads monotonicity and abort soundness of the line loop. -/
theorem procLines_spec (cfg : Config) (D : Nat → Bool) :
    ∀ (lines : List String) (li k : Nat) (marks : List MarkerData),
    k ≤ (procLines cfg D li lines k marks).2 ∧
    ((procLines cfg D li lines k marks).1.isSome = true →
      ∀ j, k < j → j ≤ (procLines cfg D li lines k marks).2 → D j = false) := by
  intro lines
  induction lines with
  | nil =>
    intro li k marks
    refine ⟨le_refl _, ?_⟩
    intro _ j hj hj2
    simp only [procLines] at hj2
    exact absurd hj2 (by omega)
  | cons line rest ih =>
    intro li k marks
    by_cases hcap : marks.length > 500
    · have hrec : procLines cfg D li (line :: rest) k marks = (some marks, k) := by
        simp [procLines, hcap]
      rw [hrec]
      refine ⟨le_refl _, ?_⟩
      intro _ j hj hj2
      simp only at hj2
      exact absurd hj2 (by omega)
    · rcases hpt : procTokens cfg D li (cfg.tokenize line) k marks with ⟨r1, k1⟩
      have hspec := procTokens_spec cfg D li (cfg.tokenize line) k marks
      rw [hpt] at hspec
      cases r1 with
      | none =>
        have hrec : procLines cfg D li (line :: rest) k marks = (none, k1) := by
          simp [procLines, hcap, hpt]
        rw [hrec]
        refine ⟨hspec.1, ?_⟩
        intro hs
        simp at hs
      | some m2 =>
        have hrec : procLines cfg D li (line :: rest) k marks =
            procLines cfg D (li + 1) rest k1 m2 := by
          simp [procLines, hcap, hpt]
        obtain ⟨ih1, ih2⟩ := ih (li + 1) k1 m2
        rw [hrec]
        refine ⟨le_trans hspec.1 ih1, ?_⟩
        intro hs j hj hj2
        rcases Nat.lt_or_ge k1 j with hgt | hle
        · exact ih2 hs j hgt hj2
        · exact hspec.2 (by simp) j hj hle

/-- C3: if `dispose()` runs at a suspension point that `process`
actually reaches (the disposed flag — monotone, since it is only ever
set — is observed true at some performed read), the scan is abandoned
with zero marker-store mutations, and the store stays as `dispose`
cleared it.  The read at index 0 is the entry check, so a `process`
started after disposal never publishes either. -/
theorem C3_dispose_abandons (cfg : Config) (D : Nat → Bool) (text : String)
    (hmono : ∀ i j, i ≤ j → D i = true → D j = true)
    (hk : ∃ k, k ≤ (processD cfg D text).2 ∧ D k = true) :
    (processD cfg D text).1 = none ∧ storeAfterDispose cfg D text = [] := by
  have main : (processD cfg D text).1 = none := by
    by_cases h0 : D 0 = true
    · simp [processD, h0]
    · have h0' : D 0 = false := by
        cases h : D 0
        · rfl
        · exact absurd h h0
      have hPD : processD cfg D text =
          procLines cfg D 0 (splitOnNewlines text) 0 [] := by
        simp [processD, h0']
      obtain ⟨k, hkle, hktrue⟩ := hk
      rw [hPD] at hkle ⊢
      cases hx : (procLines cfg D 0 (splitOnNewlines text) 0 []).1 with
      | none => rfl
      | some m =>
        exfalso
        have hs : (procLines cfg D 0 (splitOnNewlines text) 0 []).1.isSome = true := by
          rw [hx]; rfl
        have hspec := procLines_spec cfg D (splitOnNewlines text) 0 0 []
        rcases Nat.eq_zero_or_pos
            (procLines cfg D 0 (splitOnNewlines text) 0 []).2 with hz | hp
        · rw [hz] at hkle
          have hk0 : k = 0 := Nat.le_zero.mp hkle
          rw [hk0, h0'] at hktrue
          exact Bool.false_ne_true hktrue
        · have hfalse := hspec.2 hs _ hp (le_refl _)
          have htrue := hmono k _ hkle hktrue
          rw [hfalse] at htrue
          exact Bool.false_ne_true htrue
  exact ⟨main, by simp [storeAfterDispose, main]⟩

/-- Witness for C3: one misspelled token, disposal at the first await. -/
theorem C3_dispose_abandons_witness :
    (processD cfg3 D3 "ab").2 = 1 ∧ D3 1 = true ∧
    (processD cfg3 D3 "ab").1 = none ∧ storeAfterDispose cfg3 D3 "ab" = [] :=
  ⟨by decide, by decide,
    (C3_dispose_abandons cfg3 D3 "ab"
      (by
        intro i j hij hi
        simp only [D3, decide_eq_true_eq] at hi ⊢
        omega)
      ⟨1, by decide, by decide⟩).1,
    (C3_dispose_abandons cfg3 D3 "ab"
      (by
        intro i j hij hi
        simp only [D3, decide_eq_true_eq] at hi ⊢
        omega)
      ⟨1, by decide, by decide⟩).2⟩

/-- Changing the message builder away from the ignore kind does not
change the marker built for a misspelled token (it only uses the
hover-message kind). -/
theorem mkMarker_mb_congr (cfg : Config)
    (mb2 : MsgType → String → XRange → String)
    (hmb : ∀ ty w r, ty ≠ MsgType.ignore → cfg.messageBuilder ty w r = mb2 ty w r)
    (i : Nat) (t : Token) :
    mkMarker { cfg with messageBuilder := mb2 } i t = mkMarker cfg i t := by
  have h : ∀ r, mb2 MsgType.hoverMessage t.word r =
      cfg.messageBuilder MsgType.hoverMessage t.word r :=
    fun r => (hmb _ _ _ (by decide)).symm
  simp only [mkMarker]
  rw [h]

/-- The per-line loop is insensitive to the message builder's value at
the ignore kind. -/
theorem processLine_mb_congr (cfg : Config)
    (mb2 : MsgType → String → XRange → String)
    (hmb : ∀ ty w r, ty ≠ MsgType.ignore → cfg.messageBuilder ty w r = mb2 ty w r)
    (i : Nat) (line : String) :
    processLine { cfg with messageBuilder := mb2 } i line =
      processLine cfg i line := by
  rw [processLine_eq, processLine_eq]
  exact List.map_congr_left fun t _ => mkMarker_mb_congr cfg mb2 hmb i t

/-- The line loop is insensitive to the message builder's value at the
ignore kind. -/
theorem processLines_mb_congr (cfg : Config)
    (mb2 : MsgType → String → XRange → String)
    (hmb : ∀ ty w r, ty ≠ MsgType.ignore → cfg.messageBuilder ty w r = mb2 ty w r) :
    ∀ (lines : List String) (i : Nat) (marks : List MarkerData),
    processLines { cfg with messageBuilder := mb2 } i lines marks =
      processLines cfg i lines marks := by
  intro lines
  induction lines with
  | nil => intro i marks; rfl
  | cons line rest ih =>
    intro i marks
    by_cases hcap : marks.length > 500
    · simp [processLines, hcap]
    · simp only [processLines, if_neg hcap]
      rw [processLine_mb_congr cfg mb2 hmb, ih]

/-- The apply-suggestion action is insensitive to the message builder's
value at the ignore kind. -/
theorem applyAction_mb_congr (cfg : Config)
    (mb2 : MsgType → String → XRange → String)
    (hmb : ∀ ty w r, ty ≠ MsgType.ignore → cfg.messageBuilder ty w r = mb2 ty w r)
    (m : MarkerData) (s : String) :
    applyAction { cfg with messageBuilder := mb2 } m s = applyAction cfg m s := by
  have h : ∀ r, mb2 MsgType.applySuggestion s r =
      cfg.messageBuilder MsgType.applySuggestion s r :=
    fun r => (hmb _ _ _ (by decide)).symm
  simp only [applyAction]
  rw [h]

/-- The add-word action is insensitive to the message builder's value
at the ignore kind. -/
theorem addWordAction_mb_congr (cfg : Config)
    (mb2 : MsgType → String → XRange → String)
    (hmb : ∀ ty w r, ty ≠ MsgType.ignore → cfg.messageBuilder ty w r = mb2 ty w r)
    (m : MarkerData) (w : String) :
    addWordAction { cfg with messageBuilder := mb2 } m w =
      addWordAction cfg m w := by
  have h : ∀ r, mb2 MsgType.addWord w r =
      cfg.messageBuilder MsgType.addWord w r :=
    fun r => (hmb _ _ _ (by decide)).symm
  simp only [addWordAction]
  rw [h]

/-- When the ignore capability is absent, the assembled action list is
insensitive to the message builder's value at the ignore kind. -/
theorem buildActions_mb_congr (cfg : Config)
    (mb2 : MsgType → String → XRange → String)
    (hI : cfg.hasIgnore = false)
    (hmb : ∀ ty w r, ty ≠ MsgType.ignore → cfg.messageBuilder ty w r = mb2 ty w r)
    (m : MarkerData) (word : String) (list : List String) :
    buildActions { cfg with messageBuilder := mb2 } m word list =
      buildActions cfg m word list := by
  have hI2 : ¬ (cfg.hasIgnore = true) := by rw [hI]; simp
  simp only [buildActions]
  rw [List.map_congr_left fun s _ => applyAction_mb_congr cfg mb2 hmb m s]
  rw [if_neg hI2, if_neg hI2]
  by_cases hA : cfg.hasAddWord = true
  · rw [if_pos hA, if_pos hA, addWordAction_mb_congr cfg mb2 hmb]
  · rw [if_neg hA, if_neg hA]

/-- When the ignore capability is absent, the provider is insensitive
to the message builder's value at the ignore kind. -/
theorem provideCodeActions_mb_congr (cfg : Config)
    (mb2 : MsgType → String → XRange → String)
    (hI : cfg.hasIgnore = false)
    (hmb : ∀ ty w r, ty ≠ MsgType.ignore → cfg.messageBuilder ty w r = mb2 ty w r)
    (d : Bool) (markers : List MarkerData) (range : XRange) (c : Bool) :
    provideCodeActions { cfg with messageBuilder := mb2 } d markers range c =
      provideCodeActions cfg d markers range c := by
  cases d with
  | true => rfl
  | false =>
    cases hf : markers.find? (fun marker => containsRange marker.toRange range) with
    | none => simp [provideCodeActions, hf]
    | some m =>
      cases c with
      | true => simp [provideCodeActions, hf]
      | false =>
        simp only [provideCodeActions, Bool.false_eq_true, if_false, hf]
        rw [buildActions_mb_congr cfg mb2 hI hmb]

/-- C6: with the ignore capability omitted, no ignore editor action is
registered at construction, no fix-action query returns an action
carrying the ignore command, and the ignore case of the message
builder is never consulted: every observable output (provider results,
published markers, registrations) is unchanged when the message
builder is replaced by one differing only at the ignore kind. -/
theorem C6_ignore_gating (cfg : Config)
    (mb2 : MsgType → String → XRange → String)
    (hI : cfg.hasIgnore = false)
    (hmb : ∀ ty w r, ty ≠ MsgType.ignore → cfg.messageBuilder ty w r = mb2 ty w r) :
    Registration.editorAction ignoreActionId ∉ registrations cfg ∧
    (∀ (d : Bool) (markers : List MarkerData) (range : XRange) (c : Bool)
      (acts : List CodeAction),
      (provideCodeActions cfg d markers range c).1 = some acts →
      ∀ a ∈ acts, a.command.id ≠ buildCustomEditorId ignoreActionId) ∧
    (∀ (d : Bool) (markers : List MarkerData) (range : XRange) (c : Bool),
      provideCodeActions { cfg with messageBuilder := mb2 } d markers range c =
        provideCodeActions cfg d markers range c) ∧
    (∀ text, process { cfg with messageBuilder := mb2 } text =
      process cfg text) ∧
    registrations { cfg with messageBuilder := mb2 } = registrations cfg := by
  refine ⟨?_, ?_, provideCodeActions_mb_congr cfg mb2 hI hmb,
    fun text => processLines_mb_congr cfg mb2 hmb (splitOnNewlines text) 0 [],
    rfl⟩
  · intro hmem
    rw [registrations] at hmem
    rcases List.mem_append.mp hmem with h | h
    · rcases List.mem_append.mp h with h2 | h2
      · simp only [List.mem_cons, List.mem_singleton] at h2
        rcases h2 with h3 | h3 | h3
        · exact absurd (congrArg (fun r => match r with
            | Registration.editorAction s => s
            | Registration.codeActionProviderReg => "") h3) (by decide)
        · exact Registration.noConfusion h3
        · simp at h3
      · rw [hI] at h2
        simp at h2
    · by_cases hA : cfg.hasAddWord = true
      · rw [hA] at h
        simp only [if_true, List.mem_singleton] at h
        exact absurd (congrArg (fun r => match r with
          | Registration.editorAction s => s
          | Registration.codeActionProviderReg => "") h) (by decide)
      · have hA' : cfg.hasAddWord = false := by
          cases hx : cfg.hasAddWord
          · rfl
          · exact absurd hx hA
        rw [hA'] at h
        simp at h
  · intro d markers range c acts hacts a ha
    cases d with
    | true => simp [provideCodeActions] at hacts
    | false =>
      cases hf : markers.find?
          (fun marker => containsRange marker.toRange range) with
      | none => simp [provideCodeActions, hf] at hacts
      | some m =>
        cases c with
        | true => simp [provideCodeActions, hf] at hacts
        | false =>
          simp only [provideCodeActions, Bool.false_eq_true, if_false, hf,
            Option.some.injEq] at hacts
          rw [← hacts] at ha
          simp only [buildActions, hI, Bool.false_eq_true, if_false,
            List.append_nil, List.nil_append] at ha
          rcases List.mem_append.mp ha with h | h
          · obtain ⟨s, _, rfl⟩ := List.mem_map.mp h
            simp only [applyAction]
            decide
          · by_cases hA : cfg.hasAddWord = true
            · rw [hA] at h
              simp only [if_true, List.mem_singleton] at h
              rw [h]
              simp only [addWordAction]
              decide
            · have hA' : cfg.hasAddWord = false := by
                cases hx : cfg.hasAddWord
                · rfl
                · exact absurd hx hA
              rw [hA'] at h
              simp at h

/-- Witness for C6 on `cfg6` and a builder changed at the ignore kind. -/
theorem C6_ignore_gating_witness :
    cfg6.hasIgnore = false ∧
    Registration.editorAction ignoreActionId ∉ registrations cfg6 ∧
    process { cfg6 with messageBuilder := mb6 } "a cta" = process cfg6 "a cta" :=
  ⟨rfl,
    (C6_ignore_gating cfg6 mb6 rfl
      (by
        intro ty w r h
        simp [cfg6, cfg2, mb6, h])).1,
    (C6_ignore_gating cfg6 mb6 rfl
      (by
        intro ty w r h
        simp [cfg6, cfg2, mb6, h])).2.2.2.1 "a cta"⟩

end Spellchecker
